import Mathlib

/-!
Verification of the multi-source access orchestration core of the
medical-database search repository.

The embedding follows `src/scraping/smart_access_manager.py`
(`SmartAccessManager.search_database`, `batch_search`,
`_sort_methods_by_success_rate`, `_update_success_rate`, `_sort_results`)
and `src/scraping/utils.py` (`RateLimiter.wait_if_needed`,
`RateLimiter.record_request`, `RetryHandler._calculate_delay`).

Python dictionaries are modelled as association lists, Python floats as
rationals, wall-clock timestamps as rationals, and a source adapter's
behaviour on the one fixed call under discussion as a map from strategy
name to an optional outcome (`none` = the strategy is not registered in
`API_MODULES` for that source).
-/

namespace MedSearch

/-- A JSON-ish field value of a result-record dictionary.  The scraping
adapters put strings and numbers into records; for the ranking code the
only distinction that matters is numeric versus non-numeric. -/
inductive FieldValue where
  | str (s : String)
  | num (q : ℚ)
deriving DecidableEq, Repr

/-- A result record is a Python dict: an association list from field name
to value (first binding wins, as `dict` lookup). -/
abbrev ResultRecord := List (String × FieldValue)

/-- Python `d.get(k)` on an association list. -/
def getAssoc {β : Type} (l : List (String × β)) (k : String) : Option β :=
  (l.find? (fun p => p.1 == k)).map (fun p => p.2)

/-- Python `d[k] = v` on an association list: replace the first binding of `k`,
or append a fresh binding at the end (Python dicts preserve insertion
order, and a new key goes last). -/
def setAssoc {β : Type} (l : List (String × β)) (k : String) (v : β) :
    List (String × β) :=
  match l with
  | [] => [(k, v)]
  | (k', v') :: rest =>
      if k' == k then (k, v) :: rest else (k', v') :: setAssoc rest k v

/-- Per-(source, strategy) success statistics, the value stored by
`_update_success_rate`: `{"success": _, "total": _, "rate": _}`. -/
structure Stats where
  success : ℕ
  total : ℕ
  rate : ℚ
deriving DecidableEq, Repr

/-- The `self.success_rates` store: source id → strategy name → stats. -/
abbrev SuccessRates := List (String × List (String × Stats))

/-- Stats stored for `(db_id, method)`, if any. -/
def lookupStats (sr : SuccessRates) (db m : String) : Option Stats :=
  (getAssoc sr db).bind (fun d => getAssoc d m)

/-- Embeds `SmartAccessManager._update_success_rate` (smart_access_manager.py,
lines 323–351): initialise missing entries to
`{"success": 0, "total": 0, "rate": 0.5}`, bump the counters, recompute
`rate = success / total` (written `mkRat`, the exact rational value of
that division). -/
def update_success_rate (sr : SuccessRates) (db m : String)
    (success : Bool) : SuccessRates :=
  let dbMap := (getAssoc sr db).getD []
  let stats := (getAssoc dbMap m).getD ⟨0, 0, mkRat 1 2⟩
  let s' := if success then stats.success + 1 else stats.success
  let t' := stats.total + 1
  setAssoc sr db (setAssoc dbMap m ⟨s', t', mkRat s' t'⟩)

/-- The sort key of `_sort_methods_by_success_rate` (line 321):
`db_rates.get(m, {}).get('rate', 0.5)` with a neutral `0.5` when the
pair has no stats. -/
def methodRate (sr : SuccessRates) (db m : String) : ℚ :=
  match getAssoc ((getAssoc sr db).getD []) m with
  | some st => st.rate
  | none => mkRat 1 2

/-- Insert `a` into `l` keeping `l`'s order, placing `a` before the first
element whose key is ≤ `key a`.  This is the insertion step of a stable
descending sort, the behaviour of Python's
`sorted(key=..., reverse=True)`. -/
def insertDesc {α : Type} (key : α → ℚ) (a : α) : List α → List α
  | [] => [a]
  | b :: bs => if key b ≤ key a then a :: b :: bs else b :: insertDesc key a bs

/-- Stable descending sort by a rational key: the unique output that is a
permutation of the input, non-increasing in `key`, and keeps the input
order of equal-key elements — which characterises Python's
`sorted(xs, key=key, reverse=True)`. -/
def sortDesc {α : Type} (key : α → ℚ) : List α → List α
  | [] => []
  | a :: as => insertDesc key a (sortDesc key as)

/-- Embeds `SmartAccessManager._sort_methods_by_success_rate` (lines 305–321). -/
def sort_methods_by_success_rate (sr : SuccessRates) (db : String)
    (methods : List String) : List String :=
  sortDesc (methodRate sr db) methods

/-- Does the record carry a numeric `relevanceScore`?  This is the test
`"relevanceScore" in result and isinstance(result["relevanceScore"], (int, float))`
of `_sort_results` (line 393). -/
def hasNumericScore (r : ResultRecord) : Bool :=
  match getAssoc r "relevanceScore" with
  | some (FieldValue.num _) => true
  | _ => false

/-- The per-record normalisation step of `_sort_results` (lines 392–394):
a record with a missing or non-numeric `relevanceScore` gets it set to
`0.5`; a record with a numeric score is left alone. -/
def fillScore (r : ResultRecord) : ResultRecord :=
  if hasNumericScore r then r
  else setAssoc r "relevanceScore" (FieldValue.num (mkRat 1 2))

/-- The sort key of `_sort_results` (line 396):
`r.get("relevanceScore", 0)`.  After `fillScore` every record has a
numeric score, so the `0` default and the non-numeric fallback are
unreachable there. -/
def getScoreKey (r : ResultRecord) : ℚ :=
  match getAssoc r "relevanceScore" with
  | some (FieldValue.num q) => q
  | _ => 0

/-- Embeds `SmartAccessManager._sort_results` (lines 381–396): fill missing or
non-numeric relevance scores with 0.5, then stable-sort descending by
score. -/
def sort_results (results : List ResultRecord) : List ResultRecord :=
  sortDesc getScoreKey (results.map fillScore)

/-- What one strategy call does on the fixed search under discussion:
either it returns a list of records (possibly empty — Python's distinct
"no results" outcome) or it raises an exception. -/
inductive StrategyResult where
  | ok (records : List ResultRecord)
  | err
deriving DecidableEq, Repr

/-- The adapter environment for one source and one fixed
`(query, max_results, min_date, max_date)`: strategy name ↦ behaviour of
`API_MODULES[db_id][method]`, with `none` when
`db_id in API_MODULES and method in API_MODULES[db_id]` is false. -/
abbrev AdapterEnv := String → Option StrategyResult

/-- Strategy names that the dispatch of `search_database`
(lines 204–209) actually calls: `"api"`, `"browser"`, `"selenium"`,
`"browser_automation"`.  A registered method with any other name is
looked up but never invoked. -/
def isCallName (m : String) : Bool :=
  m == "api" || m == "browser" || m == "selenium" || m == "browser_automation"

/-- The `for method in sorted_methods` loop of
`SmartAccessManager.search_database` (lines 193–230), with the local
variable `results` threaded explicitly.  Returns the final return value,
the final success-rate state, and the trace of strategies whose callable
was actually invoked, in invocation order.

Per iteration, faithful to the source: an unregistered method only logs
a warning; a registered method of callable name is invoked — a raised
exception records a failure and continues, empty results record a
failure and continue, non-empty results record a success and return the
results ranked by `sort_results`; a registered method of non-callable
name leaves `results` unchanged and the stale `if results:` test decides
(at loop entry `results` is always `[]`, so it records a failure and
continues).  After the loop, `return []`. -/
def searchLoop (env : AdapterEnv) (db : String) :
    SuccessRates → List ResultRecord → List String →
    List ResultRecord × SuccessRates × List String
  | sr, _, [] => ([], sr, [])
  | sr, res, m :: rest =>
    match env m with
    | none => searchLoop env db sr res rest
    | some outc =>
      if isCallName m then
        match outc with
        | StrategyResult.err =>
            let out := searchLoop env db (update_success_rate sr db m false) res rest
            (out.1, out.2.1, m :: out.2.2)
        | StrategyResult.ok recs =>
            if recs.isEmpty then
              let out := searchLoop env db (update_success_rate sr db m false) recs rest
              (out.1, out.2.1, m :: out.2.2)
            else
              (sort_results recs, update_success_rate sr db m true, [m])
      else
        if res.isEmpty then
          searchLoop env db (update_success_rate sr db m false) res rest
        else
          (sort_results res, update_success_rate sr db m true, [])

/-- Embeds `SmartAccessManager.search_database` (lines 170–230) for one source:
sort the registered methods by tracked success rate, then run the
fallback loop starting from `results = []`. -/
def search_database (env : AdapterEnv) (sr : SuccessRates) (db : String)
    (methods : List String) : List ResultRecord × SuccessRates × List String :=
  searchLoop env db sr [] (sort_methods_by_success_rate sr db methods)

/-- The per-source orchestration as seen by `batch_search`: it calls
`self.search_database(db_id, ...)` inside `try/except`.  The claims about
batch behaviour quantify over orchestrations that may raise a bug
outside the per-strategy catch, so the batch layer is parametrised by an
abstract fallible per-source operation. -/
abbrev BatchOrch := String → Except Unit (List ResultRecord)

/-- The accumulation loop shared by both branches of `batch_search`
(lines 250–287): `all_results = []`, then per source
`try: all_results.extend(search(db)) except: log and continue`. -/
def collectResults (orch : BatchOrch) (dbs : List String) : List ResultRecord :=
  dbs.foldl
    (fun acc db =>
      match orch db with
      | Except.ok rs => acc ++ rs
      | Except.error _ => acc)
    []

/-- Embeds `SmartAccessManager.batch_search` (lines 232–292).  The parallel
branch (`parallel and len(database_ids) > 1`) collects per-source results
in `as_completed` order, modelled by the extra argument `completion` (a
permutation of `database_ids` when the claims constrain it); the
sequential branch iterates `database_ids` in order.  Both then rank the
concatenation with `_sort_results`. -/
def batch_search (orch : BatchOrch) (database_ids : List String)
    (parallel : Bool) (completion : List String) : List ResultRecord :=
  if parallel && database_ids.length > 1 then
    sort_results (collectResults orch completion)
  else
    sort_results (collectResults orch database_ids)

/-- The reply type a caller-contract check would need: either a reported
violation or an ordinary batch result.  `batch_search` itself always
produces a plain list. -/
inductive BatchReply where
  | violation
  | results (rs : List ResultRecord)
deriving DecidableEq, Repr

/-- Stated from the spec's words for comparison with the source (§7:
"Only a fully malformed invocation (e.g., empty source-id list when
sources were required) should be treated as a caller-contract violation,
reported before any orchestration begins"): validate the source list
before orchestrating. -/
def batch_search_spec_validated (orch : BatchOrch) (database_ids : List String)
    (parallel : Bool) (completion : List String) : BatchReply :=
  if database_ids.isEmpty then BatchReply.violation
  else BatchReply.results (batch_search orch database_ids parallel completion)

/-- Embeds `RateLimiter.wait_if_needed` (utils.py, lines 203–227) for one
domain, with wall-clock time explicit.  Input: the stored timestamp list
for the domain (`none` when the domain was never seen), the limit, and
`current_time`.  Output: the timestamp list stored for the domain after
the call, and the time slept (0 when no sleep happened).

Faithful to the source: an unseen domain gets an empty list and returns
at once; otherwise the list is pruned to `ts > current_time - 60`; if
still at least `requests_per_minute` entries survive,
`wait_time = 60 - (current_time - pruned[0])`, and when positive the
call sleeps that long and then resets the list to `[]` ("clear old
timestamps and start fresh"). -/
def wait_if_needed (stored : Option (List ℚ)) (requests_per_minute : ℕ)
    (current_time : ℚ) : List ℚ × ℚ :=
  match stored with
  | none => ([], 0)
  | some ts =>
    let pruned := ts.filter (fun t => current_time - 60 < t)
    if requests_per_minute ≤ pruned.length then
      let wait_time := 60 - (current_time - pruned.headI)
      if 0 < wait_time then ([], wait_time) else (pruned, 0)
    else
      (pruned, 0)

/-- Embeds `RateLimiter.record_request` (utils.py, lines 229–234) for one
domain: append the current timestamp. -/
def record_request (stored : Option (List ℚ)) (current_time : ℚ) : List ℚ :=
  stored.getD [] ++ [current_time]

/-- The pre-jitter delay of `RetryHandler._calculate_delay` (utils.py,
lines 262–265): `min(initial_delay * backoff_factor ** attempt, max_delay)`. -/
def backoff_delay (initial_delay max_delay backoff_factor : ℚ)
    (attempt : ℕ) : ℚ :=
  min (initial_delay * backoff_factor ^ attempt) max_delay

/-- Embeds `RetryHandler._calculate_delay` (utils.py, lines 259–271), with the
draw of `random.random()` made an explicit argument `r ∈ [0, 1)`:
`jitter_amount = delay * jitter_factor;
delay += random.random() * jitter_amount * 2 - jitter_amount`. -/
def calculate_delay (initial_delay max_delay backoff_factor jitter_factor : ℚ)
    (attempt : ℕ) (r : ℚ) : ℚ :=
  let delay := backoff_delay initial_delay max_delay backoff_factor attempt
  let jitter_amount := delay * jitter_factor
  delay + (r * jitter_amount * 2 - jitter_amount)
/-- The effect of one `_update_success_rate` call on the stored stats of
the updated pair. -/
def stepStats (o : Option Stats) (b : Bool) : Stats :=
  let st := o.getD ⟨0, 0, mkRat 1 2⟩
  let s' := if b then st.success + 1 else st.success
  ⟨s', st.total + 1, mkRat s' (st.total + 1)⟩

/-- Does the loop body leave the loop running at this method?  True when
the method is unregistered, when its call raises, when its call returns
an empty list, or when its registered name is not one the dispatch
calls (the stale `results` is `[]` then). -/
def continuesAt (env : AdapterEnv) (m : String) : Bool :=
  match env m with
  | some (StrategyResult.ok recs) => !isCallName m || recs.isEmpty
  | _ => true

/-- The methods of `ms` whose callable the loop body actually invokes:
registered and dispatched by name. -/
def invokedMethods (env : AdapterEnv) (ms : List String) : List String :=
  ms.filter (fun m => (env m).isSome && isCallName m)

/-- The success-rate state after the loop has run through `ms` with every
iteration recording a failure for the registered methods (unregistered
methods record nothing). -/
def failUpdates (env : AdapterEnv) (db : String) (sr : SuccessRates)
    (ms : List String) : SuccessRates :=
  ms.foldl (fun s m => if (env m).isSome then update_success_rate s db m false else s) sr

/-- The records a source contributes to the batch: its orchestration's
results when it succeeded, nothing when it raised. -/
def okResults (orch : BatchOrch) (db : String) : List ResultRecord :=
  match orch db with
  | Except.ok rs => rs
  | Except.error _ => []

/-! ### Concrete fixtures used to instantiate the theorems -/

/-- Example record with relevance score 0.9. -/
def recA1 : ResultRecord :=
  [("id", FieldValue.str "a1"), ("relevanceScore", FieldValue.num (mkRat 9 10))]

/-- Example record with relevance score 0.3. -/
def recA2 : ResultRecord :=
  [("id", FieldValue.str "a2"), ("relevanceScore", FieldValue.num (mkRat 3 10))]

/-- Five example records for a lower-priority strategy. -/
def recsB : List ResultRecord :=
  [[("id", FieldValue.str "b1")], [("id", FieldValue.str "b2")],
   [("id", FieldValue.str "b3")], [("id", FieldValue.str "b4")],
   [("id", FieldValue.str "b5")]]

/-- Example adapter: `"api"` returns two records, `"browser"` would
return five. -/
def envAB : AdapterEnv := fun m =>
  if m = "api" then some (StrategyResult.ok [recA1, recA2])
  else if m = "browser" then some (StrategyResult.ok recsB)
  else none

/-- Example adapter: `"api"` raises, `"browser"` returns no results,
anything else is unregistered. -/
def envFail : AdapterEnv := fun m =>
  if m = "api" then some StrategyResult.err
  else if m = "browser" then some (StrategyResult.ok [])
  else none

/-- Example batch orchestration over three sources: source "s2"'s
orchestration raises an uncaught exception, the others succeed. -/
def orch3 : BatchOrch := fun db =>
  if db = "s1" then Except.ok [recA1]
  else if db = "s2" then Except.error ()
  else Except.ok [recA2]

/-! ### Generic facts about the stable descending sort -/

variable {α : Type}

theorem insertDesc_perm (key : α → ℚ) (a : α) (l : List α) :
    List.Perm (insertDesc key a l) (a :: l) := by
  induction l with
  | nil => exact List.Perm.refl _
  | cons b bs ih =>
    by_cases h : key b ≤ key a
    · simp [insertDesc, h]
    · simp only [insertDesc, if_neg h]
      exact (ih.cons b).trans (List.Perm.swap a b bs)

theorem sortDesc_perm (key : α → ℚ) (l : List α) :
    List.Perm (sortDesc key l) l := by
  induction l with
  | nil => exact List.Perm.refl _
  | cons a as ih =>
    exact (insertDesc_perm key a (sortDesc key as)).trans (ih.cons a)

theorem insertDesc_pairwise {key : α → ℚ} {a : α} {l : List α}
    (h : l.Pairwise (fun x y => key y ≤ key x)) :
    (insertDesc key a l).Pairwise (fun x y => key y ≤ key x) := by
  induction l with
  | nil => simp [insertDesc]
  | cons b bs ih =>
    rcases List.pairwise_cons.mp h with ⟨hb, hbs⟩
    by_cases hle : key b ≤ key a
    · simp only [insertDesc, if_pos hle]
      refine List.pairwise_cons.mpr ⟨?_, h⟩
      intro c hc
      rcases List.mem_cons.mp hc with rfl | hc
      · exact hle
      · exact le_trans (hb c hc) hle
    · simp only [insertDesc, if_neg hle]
      refine List.pairwise_cons.mpr ⟨?_, ih hbs⟩
      intro c hc
      have hc' : c = a ∨ c ∈ bs := by
        have := (insertDesc_perm key a bs).mem_iff.mp hc
        simpa using this
      rcases hc' with rfl | hc'
      · exact le_of_lt (lt_of_not_le hle)
      · exact hb c hc'

theorem sortDesc_pairwise (key : α → ℚ) (l : List α) :
    (sortDesc key l).Pairwise (fun x y => key y ≤ key x) := by
  induction l with
  | nil => simp [sortDesc]
  | cons a as ih => exact insertDesc_pairwise ih

theorem insertDesc_filter (key : α → ℚ) (a : α) (l : List α) (q : ℚ) :
    (insertDesc key a l).filter (fun x => decide (key x = q)) =
      if key a = q then a :: l.filter (fun x => decide (key x = q))
      else l.filter (fun x => decide (key x = q)) := by
  induction l with
  | nil =>
    simp only [insertDesc, List.filter_cons, List.filter_nil, decide_eq_true_eq]
  | cons b bs ih =>
    by_cases hle : key b ≤ key a
    · simp only [insertDesc, if_pos hle, List.filter_cons, decide_eq_true_eq]
    · simp only [insertDesc, if_neg hle]
      rw [List.filter_cons, List.filter_cons, ih]
      by_cases hbq : key b = q
      · have haq : key a ≠ q := by
          intro h
          exact hle (le_of_eq (hbq.trans h.symm))
        simp only [decide_eq_true_eq, if_pos hbq, if_neg haq]
      · simp only [decide_eq_true_eq, if_neg hbq]

theorem sortDesc_filter (key : α → ℚ) (l : List α) (q : ℚ) :
    (sortDesc key l).filter (fun x => decide (key x = q)) =
      l.filter (fun x => decide (key x = q)) := by
  induction l with
  | nil => rfl
  | cons a as ih =>
    simp only [sortDesc, insertDesc_filter, ih, List.filter_cons,
      decide_eq_true_eq]

/-! ### Association lists -/

theorem getAssoc_nil {β : Type} (k : String) :
    getAssoc ([] : List (String × β)) k = none := rfl

theorem getAssoc_cons {β : Type} (k' k : String) (v : β)
    (l : List (String × β)) :
    getAssoc ((k', v) :: l) k = if k' = k then some v else getAssoc l k := by
  by_cases h : k' = k
  · simp [getAssoc, List.find?, h]
  · have hb : (k' == k) = false := beq_eq_false_iff_ne.mpr h
    simp [getAssoc, List.find?, hb, h]

theorem setAssoc_nil {β : Type} (k : String) (v : β) :
    setAssoc ([] : List (String × β)) k v = [(k, v)] := rfl

theorem setAssoc_cons {β : Type} (k' k : String) (v' v : β)
    (l : List (String × β)) :
    setAssoc ((k', v') :: l) k v =
      if k' = k then (k, v) :: l else (k', v') :: setAssoc l k v := by
  by_cases h : k' = k <;> simp [setAssoc, h]

theorem getAssoc_setAssoc_self {β : Type} (l : List (String × β)) (k : String)
    (v : β) : getAssoc (setAssoc l k v) k = some v := by
  induction l with
  | nil => simp [setAssoc, getAssoc, List.find?]
  | cons p rest ih =>
    obtain ⟨k', v'⟩ := p
    by_cases h : k' == k
    · simp [setAssoc, h, getAssoc, List.find?]
    · simp only [setAssoc, getAssoc, List.find?, h]
      simpa [getAssoc] using ih

theorem getAssoc_setAssoc_ne {β : Type} (l : List (String × β)) (k k' : String)
    (v : β) (h : k' ≠ k) : getAssoc (setAssoc l k v) k' = getAssoc l k' := by
  induction l with
  | nil =>
    have : (k == k') = false := by
      simp [beq_iff_eq]
      exact fun e => h e.symm
    simp [setAssoc, getAssoc, List.find?, this]
  | cons p rest ih =>
    obtain ⟨k₀, v₀⟩ := p
    by_cases h0 : k₀ == k
    · have hk : k₀ = k := by simpa [beq_iff_eq] using h0
      have : (k == k') = false := by
        simp [beq_iff_eq]
        exact fun e => h e.symm
      have hne : (k₀ == k') = false := by
        simp [beq_iff_eq, hk]
        exact fun e => h e.symm
      simp [setAssoc, h0, getAssoc, List.find?, this, hne]
    · by_cases h1 : k₀ == k'
      · simp [setAssoc, h0, getAssoc, List.find?, h1]
      · simp only [setAssoc, h0, Bool.false_eq_true, if_false, getAssoc,
          List.find?, h1]
        simpa [getAssoc] using ih

/-! ### Success-rate bookkeeping -/

theorem lookupStats_update_self (sr : SuccessRates) (db m : String) (b : Bool) :
    lookupStats (update_success_rate sr db m b) db m =
      some (stepStats (lookupStats sr db m) b) := by
  simp only [update_success_rate, lookupStats]
  rw [getAssoc_setAssoc_self, Option.some_bind, getAssoc_setAssoc_self]
  cases hdb : getAssoc sr db with
  | none => simp [hdb, stepStats, getAssoc, List.find?]
  | some dbMap => cases hm : getAssoc dbMap m <;> simp [hdb, hm, stepStats]

theorem lookupStats_foldl_update (db m : String) (bs : List Bool) :
    ∀ (sr : SuccessRates) (st : Stats),
      lookupStats sr db m = some st → bs ≠ [] →
      lookupStats (bs.foldl (fun s b => update_success_rate s db m b) sr) db m =
        some ⟨st.success + bs.count true, st.total + bs.length,
              mkRat ((st.success + bs.count true : ℕ) : ℤ)
                (st.total + bs.length)⟩ := by
  induction bs with
  | nil => intro sr st _ hne; cases hne rfl
  | cons b bs ih =>
    intro sr st h _
    have h1 := lookupStats_update_self sr db m b
    rw [h] at h1
    by_cases hbs : bs = []
    · subst hbs
      simp only [List.foldl_cons, List.foldl_nil]
      rw [h1]
      cases b <;> simp [stepStats, List.count_cons]
    · rw [List.foldl_cons, ih (update_success_rate sr db m b) _ h1 hbs]
      have hs : (stepStats (some st) b).success + bs.count true =
          st.success + (b :: bs).count true := by
        cases b <;> first
          | (simp [stepStats, List.count_cons]; omega)
          | simp [stepStats, List.count_cons]
      have ht : (stepStats (some st) b).total + bs.length =
          st.total + (b :: bs).length := by
        simp [stepStats]; omega
      rw [hs, ht]

/-! ### Score-filling and ranking lemmas -/

theorem fillScore_of_numeric (r : ResultRecord)
    (h : hasNumericScore r = true) : fillScore r = r := by
  simp [fillScore, h]

theorem hasNumericScore_fillScore (r : ResultRecord) :
    hasNumericScore (fillScore r) = true := by
  by_cases h : hasNumericScore r
  · rw [fillScore_of_numeric r h]
    exact h
  · have hfill : fillScore r =
        setAssoc r "relevanceScore" (FieldValue.num (mkRat 1 2)) := by
      simp [fillScore, h]
    rw [hfill]
    unfold hasNumericScore
    rw [getAssoc_setAssoc_self]

theorem getAssoc_fillScore_ne (r : ResultRecord) (k : String)
    (h : k ≠ "relevanceScore") : getAssoc (fillScore r) k = getAssoc r k := by
  unfold fillScore
  by_cases hn : hasNumericScore r
  · simp [hn]
  · simp only [hn, Bool.false_eq_true, if_false]
    exact getAssoc_setAssoc_ne r "relevanceScore" k _ h

theorem getAssoc_fillScore_score (r : ResultRecord) :
    getAssoc (fillScore r) "relevanceScore" =
      if hasNumericScore r then getAssoc r "relevanceScore"
      else some (FieldValue.num (mkRat 1 2)) := by
  unfold fillScore
  by_cases hn : hasNumericScore r
  · simp [hn]
  · simp [hn, getAssoc_setAssoc_self]

theorem sort_results_perm (rs : List ResultRecord) :
    List.Perm (sort_results rs) (rs.map fillScore) :=
  sortDesc_perm getScoreKey (rs.map fillScore)

theorem sort_results_pairwise (rs : List ResultRecord) :
    (sort_results rs).Pairwise (fun a b => getScoreKey b ≤ getScoreKey a) :=
  sortDesc_pairwise getScoreKey (rs.map fillScore)

theorem sort_results_numeric (rs : List ResultRecord) :
    ∀ r ∈ sort_results rs, hasNumericScore r = true := by
  intro r hr
  have hr' : r ∈ rs.map fillScore := (sort_results_perm rs).mem_iff.mp hr
  rcases List.mem_map.mp hr' with ⟨x, _, rfl⟩
  exact hasNumericScore_fillScore x

/-! ### The fallback loop of `search_database` -/

theorem searchLoop_append (env : AdapterEnv) (db : String)
    (pre rest : List String) :
    ∀ sr : SuccessRates, (∀ m ∈ pre, continuesAt env m = true) →
      searchLoop env db sr [] (pre ++ rest) =
        ((searchLoop env db (failUpdates env db sr pre) [] rest).1,
         (searchLoop env db (failUpdates env db sr pre) [] rest).2.1,
         invokedMethods env pre ++
           (searchLoop env db (failUpdates env db sr pre) [] rest).2.2) := by
  induction pre with
  | nil => intro sr _; simp [failUpdates, invokedMethods]
  | cons m pre ih =>
    intro sr h
    have hm : continuesAt env m = true := h m (List.mem_cons_self m pre)
    have hpre : ∀ m' ∈ pre, continuesAt env m' = true :=
      fun m' hm' => h m' (List.mem_cons_of_mem m hm')
    rw [List.cons_append]
    cases henv : env m with
    | none =>
      simp only [searchLoop, henv]
      rw [ih sr hpre]
      simp [failUpdates, invokedMethods, henv]
    | some outc =>
      cases outc with
      | err =>
        by_cases hcall : isCallName m
        · simp only [searchLoop, henv, hcall, if_true]
          rw [ih (update_success_rate sr db m false) hpre]
          simp [failUpdates, invokedMethods, henv, hcall]
        · simp only [searchLoop, henv, hcall, Bool.false_eq_true, if_false,
            List.isEmpty_nil, if_true]
          rw [ih (update_success_rate sr db m false) hpre]
          simp [failUpdates, invokedMethods, henv, hcall]
      | ok recs =>
        by_cases hcall : isCallName m
        · have hrecs : recs = [] := by
            have := hm
            simp [continuesAt, henv, hcall] at this
            exact this
          subst hrecs
          simp only [searchLoop, henv, hcall, if_true, List.isEmpty_nil]
          rw [ih (update_success_rate sr db m false) hpre]
          simp [failUpdates, invokedMethods, henv, hcall]
        · simp only [searchLoop, henv, hcall, Bool.false_eq_true, if_false,
            List.isEmpty_nil, if_true]
          rw [ih (update_success_rate sr db m false) hpre]
          simp [failUpdates, invokedMethods, henv, hcall]

theorem searchLoop_trace_sublist (env : AdapterEnv) (db : String)
    (ms : List String) :
    ∀ (sr : SuccessRates) (res : List ResultRecord),
      List.Sublist (searchLoop env db sr res ms).2.2 ms := by
  induction ms with
  | nil => intro sr res; simp [searchLoop]
  | cons m rest ih =>
    intro sr res
    cases henv : env m with
    | none =>
      simp only [searchLoop, henv]
      exact (ih sr res).cons m
    | some outc =>
      cases outc with
      | err =>
        by_cases hcall : isCallName m
        · simp only [searchLoop, henv, hcall, if_true]
          exact (ih _ res).cons₂ m
        · simp only [searchLoop, henv, hcall, Bool.false_eq_true, if_false]
          by_cases hres : res.isEmpty
          · simp only [hres, if_true]
            exact (ih _ res).cons m
          · simp only [hres, Bool.false_eq_true, if_false]
            exact List.nil_sublist _
      | ok recs =>
        by_cases hcall : isCallName m
        · by_cases hrecs : recs.isEmpty
          · simp only [searchLoop, henv, hcall, if_true, hrecs]
            exact (ih _ recs).cons₂ m
          · simp only [searchLoop, henv, hcall, if_true, hrecs,
              Bool.false_eq_true, if_false]
            simp
        · simp only [searchLoop, henv, hcall, Bool.false_eq_true, if_false]
          by_cases hres : res.isEmpty
          · simp only [hres, if_true]
            exact (ih _ res).cons m
          · simp only [hres, Bool.false_eq_true, if_false]
            exact List.nil_sublist _

theorem searchLoop_fst_shape (env : AdapterEnv) (db : String)
    (ms : List String) :
    ∀ (sr : SuccessRates) (res : List ResultRecord),
      (searchLoop env db sr res ms).1 = [] ∨
        ∃ rs, (searchLoop env db sr res ms).1 = sort_results rs := by
  induction ms with
  | nil => intro sr res; left; rfl
  | cons m rest ih =>
    intro sr res
    cases henv : env m with
    | none =>
      simp only [searchLoop, henv]
      exact ih sr res
    | some outc =>
      cases outc with
      | err =>
        by_cases hcall : isCallName m
        · simp only [searchLoop, henv, hcall, if_true]
          exact ih _ res
        · simp only [searchLoop, henv, hcall, Bool.false_eq_true, if_false]
          by_cases hres : res.isEmpty
          · simp only [hres, if_true]
            exact ih _ res
          · simp only [hres, Bool.false_eq_true, if_false]
            exact Or.inr ⟨res, rfl⟩
      | ok recs =>
        by_cases hcall : isCallName m
        · by_cases hrecs : recs.isEmpty
          · simp only [searchLoop, henv, hcall, if_true, hrecs]
            exact ih _ recs
          · simp only [searchLoop, henv, hcall, if_true, hrecs,
              Bool.false_eq_true, if_false]
            exact Or.inr ⟨recs, rfl⟩
        · simp only [searchLoop, henv, hcall, Bool.false_eq_true, if_false]
          by_cases hres : res.isEmpty
          · simp only [hres, if_true]
            exact ih _ res
          · simp only [hres, Bool.false_eq_true, if_false]
            exact Or.inr ⟨res, rfl⟩

/-! ### Claims -/

/-- C1: First success wins: with the strategies in tracked-success-rate
order, once one strategy call returns a non-empty result list,
`search_database` records a success outcome for that (source, strategy)
pair and returns that strategy's records (ranked by `_sort_results`); no
strategy later in the order is invoked. -/
theorem first_success_wins (env : AdapterEnv) (sr : SuccessRates)
    (db : String) (methods pre post : List String) (m : String)
    (recs : List ResultRecord)
    (horder : sort_methods_by_success_rate sr db methods = pre ++ m :: post)
    (hpre : ∀ m' ∈ pre, continuesAt env m' = true)
    (henv : env m = some (StrategyResult.ok recs))
    (hne : recs ≠ []) (hcall : isCallName m = true) :
    search_database env sr db methods =
      (sort_results recs,
       update_success_rate (failUpdates env db sr pre) db m true,
       invokedMethods env pre ++ [m]) := by
  unfold search_database
  rw [horder, searchLoop_append env db pre (m :: post) sr hpre]
  have hrecs : recs.isEmpty = false := by
    cases recs with
    | nil => exact absurd rfl hne
    | cons a l => rfl
  simp [searchLoop, henv, hcall, hrecs]

/-- Witness for C1: strategy "api" returns 2 records, lower-priority
"browser" would return 5 — exactly "api"'s records come back, "api"'s
success is recorded, and "browser" is never invoked. -/
theorem first_success_wins_witness :
    search_database envAB [] "pubmed" ["api", "browser"] =
      (sort_results [recA1, recA2],
       update_success_rate [] "pubmed" "api" true, ["api"]) ∧
    recsB.length = 5 := by
  have h := first_success_wins envAB [] "pubmed" ["api", "browser"]
    [] ["browser"] "api" [recA1, recA2]
    (by decide) (by intro m' hm'; cases hm') (by decide) (by decide) rfl
  refine ⟨?_, rfl⟩
  simpa [failUpdates, invokedMethods] using h

/-- C2: `_sort_methods_by_success_rate` orders strategies descending by
tracked success rate (unseen pairs rate 0.5 via `methodRate`), the sort
is a stable permutation (ties keep registration order), the loop of
`search_database` walks that order (its invocation trace is a sublist of
it), and rates 0.9, 0.9, 0.3 for A, B, C yield the order A, B, C. -/
theorem strategy_order_stable :
    (∀ (sr : SuccessRates) (db : String) (methods : List String),
      List.Perm (sort_methods_by_success_rate sr db methods) methods ∧
      (sort_methods_by_success_rate sr db methods).Pairwise
        (fun a b => methodRate sr db b ≤ methodRate sr db a) ∧
      (∀ q : ℚ,
        (sort_methods_by_success_rate sr db methods).filter
            (fun m => decide (methodRate sr db m = q)) =
          methods.filter (fun m => decide (methodRate sr db m = q)))) ∧
    (∀ (env : AdapterEnv) (sr : SuccessRates) (db : String)
        (methods : List String),
      List.Sublist (search_database env sr db methods).2.2
        (sort_methods_by_success_rate sr db methods)) ∧
    sort_methods_by_success_rate
        [("src", [("A", ⟨9, 10, mkRat 9 10⟩), ("B", ⟨9, 10, mkRat 9 10⟩),
                  ("C", ⟨3, 10, mkRat 3 10⟩)])]
        "src" ["A", "B", "C"] = ["A", "B", "C"] := by
  refine ⟨fun sr db methods =>
      ⟨sortDesc_perm _ _, sortDesc_pairwise _ _,
       fun q => sortDesc_filter _ _ _⟩,
    fun env sr db methods => searchLoop_trace_sublist env db _ sr [],
    by decide⟩

/-- C3: if every strategy attempt raises, returns empty, or is skipped,
`search_database` returns the empty list (no exception in the model —
the function is total), having recorded a failed outcome for every
registered strategy it reached. -/
theorem exhaustion_returns_empty (env : AdapterEnv) (sr : SuccessRates)
    (db : String) (methods : List String)
    (hall : ∀ m' ∈ methods, continuesAt env m' = true) :
    search_database env sr db methods =
      ([], failUpdates env db sr (sort_methods_by_success_rate sr db methods),
       invokedMethods env (sort_methods_by_success_rate sr db methods)) := by
  have hperm := sortDesc_perm (methodRate sr db) methods
  have hall' : ∀ m' ∈ sort_methods_by_success_rate sr db methods,
      continuesAt env m' = true :=
    fun m' hm' => hall m' (hperm.mem_iff.mp hm')
  unfold search_database
  have happ := searchLoop_append env db
    (sort_methods_by_success_rate sr db methods) [] sr hall'
  rw [List.append_nil] at happ
  rw [happ]
  simp [searchLoop]

/-- Witness for C3: "api" raises, "browser" returns empty, "scrape" is
unregistered — the search returns `[]`, both registered strategies get a
failed outcome (rate drops to 0), and only they were invoked. -/
theorem exhaustion_returns_empty_witness :
    search_database envFail [] "fda-drugs" ["api", "browser", "scrape"] =
      ([], [("fda-drugs", [("api", ⟨0, 1, 0⟩), ("browser", ⟨0, 1, 0⟩)])],
       ["api", "browser"]) := by
  -- the recorded rate after one failed attempt is 0/1 = 0
  have h := exhaustion_returns_empty envFail [] "fda-drugs"
    ["api", "browser", "scrape"] (by decide)
  rw [h]
  decide

/-- C4: starting from no recorded stats for a pair, after a sequence of
`n ≥ 1` outcomes with `k` successes the stored stats are exactly
`success = k`, `total = n`, `rate = k / n`, and the rate lies in
`[0, 1]`. -/
theorem success_rate_exact (sr : SuccessRates) (db m : String)
    (bs : List Bool) (hfresh : lookupStats sr db m = none) (hne : bs ≠ []) :
    lookupStats (bs.foldl (fun s b => update_success_rate s db m b) sr) db m =
      some ⟨bs.count true, bs.length,
            ((bs.count true : ℕ) : ℚ) / ((bs.length : ℕ) : ℚ)⟩ ∧
    (0 : ℚ) ≤ ((bs.count true : ℕ) : ℚ) / ((bs.length : ℕ) : ℚ) ∧
    ((bs.count true : ℕ) : ℚ) / ((bs.length : ℕ) : ℚ) ≤ 1 := by
  obtain ⟨b, bs', rfl⟩ : ∃ b bs', bs = b :: bs' := by
    cases bs with
    | nil => exact absurd rfl hne
    | cons b t => exact ⟨b, t, rfl⟩
  have hlen0 : (0 : ℚ) < (((b :: bs').length : ℕ) : ℚ) := by
    exact_mod_cast Nat.succ_pos bs'.length
  refine ⟨?_, div_nonneg (by positivity) (le_of_lt hlen0), ?_⟩
  · have h1 := lookupStats_update_self sr db m b
    rw [hfresh] at h1
    by_cases hbs : bs' = []
    · subst hbs
      simp only [List.foldl_cons, List.foldl_nil]
      rw [h1]
      cases b <;>
        simp [stepStats, List.count_cons, Rat.mkRat_eq_div]
    · rw [List.foldl_cons,
        lookupStats_foldl_update db m bs' _ _ h1 hbs]
      have hcnt : (stepStats none b).success + bs'.count true =
          (b :: bs').count true := by
        cases b <;> (simp [stepStats, List.count_cons]; try omega)
      have hlen : (stepStats none b).total + bs'.length =
          (b :: bs').length := by
        simp [stepStats]
        omega
      rw [hcnt, hlen, Rat.mkRat_eq_div]
      norm_num
  · rw [div_le_one hlen0]
    exact_mod_cast List.count_le_length ..

/-- Witness for C4: outcomes success, failure, success give stats
`success = 2`, `total = 3`, `rate = 2/3 ∈ [0, 1]`. -/
theorem success_rate_exact_witness :
    lookupStats
        ([true, false, true].foldl
          (fun s b => update_success_rate s "pubmed" "api" b) [])
        "pubmed" "api" =
      some ⟨2, 3, (2 : ℚ) / 3⟩ ∧
    (0 : ℚ) ≤ (2 : ℚ) / 3 ∧ (2 : ℚ) / 3 ≤ 1 := by
  have h := success_rate_exact [] "pubmed" "api" [true, false, true]
    rfl (by simp)
  simpa using h

/-- Counterexample to C9 as stated: ranking a record whose
`relevanceScore` is missing mutates the record — `_sort_results` writes
`relevanceScore = 0.5` into it — so the ranking step does not leave
every field of every record unchanged. -/
theorem ranking_mutates_missing_score :
    sort_results [[("title", FieldValue.str "x")]] ≠
      [[("title", FieldValue.str "x")]] := by decide

/-- C9 (amended): ranking is a permutation of the score-filled records;
a record that already has a numeric `relevanceScore` is left entirely
unchanged, and a record without one is changed only in its
`relevanceScore` field, which is set to 0.5 (`mkRat 1 2`). -/
theorem ranking_reorders_and_fills :
    ∀ rs : List ResultRecord,
      List.Perm (sort_results rs) (rs.map fillScore) ∧
      (∀ r : ResultRecord, hasNumericScore r = true → fillScore r = r) ∧
      (∀ (r : ResultRecord) (k : String), k ≠ "relevanceScore" →
        getAssoc (fillScore r) k = getAssoc r k) ∧
      (∀ r : ResultRecord, hasNumericScore r = false →
        getAssoc (fillScore r) "relevanceScore" =
          some (FieldValue.num (mkRat 1 2))) := by
  intro rs
  refine ⟨sort_results_perm rs, fillScore_of_numeric, getAssoc_fillScore_ne,
    ?_⟩
  intro r hr
  rw [getAssoc_fillScore_score, if_neg (by simp [hr])]

/-- Witness for C9 (amended), at concrete records: a numeric-score record
is untouched, a score-less record keeps its other fields and gains score
0.5. -/
theorem ranking_reorders_and_fills_witness :
    List.Perm (sort_results [recA2, recA1]) ([recA2, recA1].map fillScore) ∧
    fillScore recA1 = recA1 ∧
    getAssoc (fillScore [("title", FieldValue.str "x")]) "title" =
      getAssoc [("title", FieldValue.str "x")] "title" ∧
    getAssoc (fillScore [("title", FieldValue.str "x")]) "relevanceScore" =
      some (FieldValue.num (mkRat 1 2)) := by
  have h := ranking_reorders_and_fills [recA2, recA1]
  exact ⟨h.1, h.2.1 recA1 (by decide),
    h.2.2.1 [("title", FieldValue.str "x")] "title" (by decide),
    h.2.2.2 [("title", FieldValue.str "x")] (by decide)⟩

/-- C10: every list returned by `search_database` is sorted in
non-increasing `relevanceScore` order and every record in it carries a
numeric `relevanceScore`. -/
theorem search_results_ranked (env : AdapterEnv) (sr : SuccessRates)
    (db : String) (methods : List String) :
    ((search_database env sr db methods).1).Pairwise
      (fun a b => getScoreKey b ≤ getScoreKey a) ∧
    ∀ r ∈ (search_database env sr db methods).1,
      hasNumericScore r = true := by
  unfold search_database
  rcases searchLoop_fst_shape env db
      (sort_methods_by_success_rate sr db methods) sr [] with h | ⟨rs, h⟩
  · rw [h]
    exact ⟨List.Pairwise.nil, by simp⟩
  · rw [h]
    exact ⟨sort_results_pairwise rs, sort_results_numeric rs⟩

theorem foldl_collect (orch : BatchOrch) (dbs : List String)
    (acc : List ResultRecord) :
    dbs.foldl
        (fun acc db =>
          match orch db with
          | Except.ok rs => acc ++ rs
          | Except.error _ => acc)
        acc =
      acc ++ (dbs.map (okResults orch)).flatten := by
  induction dbs generalizing acc with
  | nil => simp
  | cons d ds ih =>
    rw [List.map_cons, List.flatten_cons, List.foldl_cons]
    cases hd : orch d with
    | ok rs =>
      rw [ih]
      simp [okResults, hd]
    | error e =>
      rw [ih]
      simp [okResults, hd]

theorem collectResults_eq_flatten (orch : BatchOrch) (dbs : List String) :
    collectResults orch dbs = (dbs.map (okResults orch)).flatten := by
  unfold collectResults
  rw [foldl_collect]
  simp

/-- C5: `batch_search` tolerates per-source failures: along both the
sequential path and the parallel path (any completion order that is a
permutation of the source list), it returns the ranked concatenation of
the result lists of the sources whose orchestration succeeded — a
failing source contributes nothing and raises nothing — and the output
is sorted by relevance score. -/
theorem batch_partial_failure_tolerance (orch : BatchOrch)
    (database_ids : List String) (parallel : Bool)
    (completion : List String)
    (hperm : List.Perm completion database_ids) :
    batch_search orch database_ids parallel completion =
      sort_results
        (((if parallel && database_ids.length > 1 then completion
           else database_ids).map (okResults orch)).flatten) ∧
    List.Perm (batch_search orch database_ids parallel completion)
      (((database_ids.map (okResults orch)).flatten).map fillScore) ∧
    (batch_search orch database_ids parallel completion).Pairwise
      (fun a b => getScoreKey b ≤ getScoreKey a) := by
  have hfl : List.Perm ((completion.map (okResults orch)).flatten)
      ((database_ids.map (okResults orch)).flatten) := by
    have h := hperm.flatMap_right (okResults orch)
    rwa [List.flatMap_def, List.flatMap_def] at h
  refine ⟨?_, ?_, ?_⟩
  · unfold batch_search
    by_cases hp : parallel && database_ids.length > 1
    · rw [if_pos hp, if_pos hp, collectResults_eq_flatten]
    · rw [if_neg hp, if_neg hp, collectResults_eq_flatten]
  · unfold batch_search
    by_cases hp : parallel && database_ids.length > 1
    · rw [if_pos hp, collectResults_eq_flatten]
      exact (sort_results_perm _).trans (hfl.map fillScore)
    · rw [if_neg hp, collectResults_eq_flatten]
      exact sort_results_perm _
  · unfold batch_search
    by_cases hp : parallel && database_ids.length > 1
    · rw [if_pos hp]
      exact sort_results_pairwise _
    · rw [if_neg hp]
      exact sort_results_pairwise _

/-- Witness for C5: three sources with "s2" raising; the parallel batch
over completion order s3, s1, s2 returns the ranked records of s1
and s3 only, as a permutation of their filled concatenation. -/
theorem batch_partial_failure_tolerance_witness :
    batch_search orch3 ["s1", "s2", "s3"] true ["s3", "s1", "s2"] =
      sort_results ((["s3", "s1", "s2"].map (okResults orch3)).flatten) ∧
    List.Perm (batch_search orch3 ["s1", "s2", "s3"] true ["s3", "s1", "s2"])
      (((["s1", "s2", "s3"].map (okResults orch3)).flatten).map fillScore) := by
  have h := batch_partial_failure_tolerance orch3 ["s1", "s2", "s3"] true
    ["s3", "s1", "s2"] (by decide)
  refine ⟨?_, h.2.1⟩
  have h1 := h.1
  simpa using h1

/-- Counterexample to C8 as stated: an empty source-id list is not
reported as a caller-contract violation — `batch_search` processes it as
an ordinary batch and returns `[]`, whereas the validation the spec
describes (`batch_search_spec_validated`) would report a violation. -/
theorem empty_batch_no_violation :
    batch_search (fun _ => Except.ok []) [] false [] = [] ∧
    batch_search_spec_validated (fun _ => Except.ok []) [] false [] =
      BatchReply.violation :=
  ⟨rfl, rfl⟩

/-- C8 (amended): `batch_search` performs no empty-list validation: a
call with an empty source-id list goes down the ordinary sequential
path — zero orchestrations, the ranked empty concatenation — and
returns `[]` without any violation report. -/
theorem empty_batch_processed_ordinarily (orch : BatchOrch)
    (parallel : Bool) (completion : List String) :
    batch_search orch [] parallel completion =
      sort_results (collectResults orch []) ∧
    batch_search orch [] parallel completion = [] := by
  have hcond : (parallel && ([] : List String).length > 1) = false := by
    simp
  constructor
  · unfold batch_search
    rw [hcond]
    simp
  · unfold batch_search
    rw [hcond]
    simp [collectResults, sort_results, sortDesc]

/-- Counterexample to C6 as stated: after the blocking wait the code
does not retain the timestamps still inside the trailing 60-second
window — it clears the whole list.  With limit 2, stored timestamps 0
and 30, and current time 1, the call sleeps 59 seconds (waking at time
60, when timestamp 30 is still within the window), yet stores `[]`, not
`[30]`. -/
theorem wait_clears_window_counterexample :
    wait_if_needed (some [0, 30]) 2 1 = ([], 59) ∧
    wait_if_needed (some [0, 30]) 2 1 ≠ ([30], 59) := by
  have hev : wait_if_needed (some [0, 30]) 2 1 = ([], 59) := by
    simp only [wait_if_needed]
    norm_num [List.filter, List.headI]
  refine ⟨hev, ?_⟩
  rw [hev]
  simp

/-- C6 (amended): for a seen domain, `wait_if_needed` first prunes the
stored timestamps to those less than 60 seconds old; if fewer than
`requests_per_minute` survive it stores the pruned list and does not
sleep, and if at least `requests_per_minute` survive (and the wait is
positive) it sleeps exactly until 60 seconds after the oldest surviving
timestamp and then clears the domain's entire list — it does not retain
the still-in-window entries. -/
theorem rate_limiter_wait_blocks (ts : List ℚ) (rpm : ℕ) (now : ℚ)
    (_hrpm : 1 ≤ rpm) :
    ((ts.filter (fun t => now - 60 < t)).length < rpm →
      wait_if_needed (some ts) rpm now =
        (ts.filter (fun t => now - 60 < t), 0)) ∧
    (rpm ≤ (ts.filter (fun t => now - 60 < t)).length →
      0 < 60 - (now - (ts.filter (fun t => now - 60 < t)).headI) →
        wait_if_needed (some ts) rpm now =
          ([], 60 - (now - (ts.filter (fun t => now - 60 < t)).headI)) ∧
        now + (wait_if_needed (some ts) rpm now).2 =
          (ts.filter (fun t => now - 60 < t)).headI + 60) := by
  constructor
  · intro hlt
    simp only [wait_if_needed]
    rw [if_neg (by omega)]
  · intro hge hw
    simp only [wait_if_needed]
    rw [if_pos hge, if_pos hw]
    exact ⟨rfl, by ring⟩

/-- Witness for C6 (amended): `requests_per_minute = 5` and six requests
recorded in immediate succession — the sixth `wait_if_needed` call
sleeps 60 seconds, i.e. until 60 seconds after the first recorded
timestamp, and stores the empty list. -/
theorem rate_limiter_wait_blocks_witness :
    wait_if_needed (some [0, 0, 0, 0, 0, 0]) 5 0 = ([], 60) ∧
    record_request (some [0, 0, 0, 0, 0]) 0 = [0, 0, 0, 0, 0, 0] := by
  have h := (rate_limiter_wait_blocks [0, 0, 0, 0, 0, 0] 5 0
    (by norm_num)).2
    (by norm_num [List.filter])
    (by norm_num [List.filter, List.headI])
  refine ⟨?_, rfl⟩
  rw [h.1]
  norm_num [List.filter, List.headI]

/-- C7: the pre-jitter retry delay equals
`min(initial_delay * backoff_factor ^ attempt, max_delay)` and so never
exceeds `max_delay`; jitter perturbs it by at most
`jitter_factor * delay`; and with initial delay 1, factor 2, cap 10 the
pre-jitter delays for attempts 0..5 are 1, 2, 4, 8, 10, 10. -/
theorem retry_backoff_cap (initial_delay max_delay backoff_factor
    jitter_factor r : ℚ) (attempt : ℕ)
    (h0 : 0 ≤ initial_delay) (h1 : 0 ≤ backoff_factor) (h2 : 0 ≤ max_delay)
    (h3 : 0 ≤ jitter_factor) (hr0 : 0 ≤ r) (hr1 : r ≤ 1) :
    backoff_delay initial_delay max_delay backoff_factor attempt =
      min (initial_delay * backoff_factor ^ attempt) max_delay ∧
    backoff_delay initial_delay max_delay backoff_factor attempt ≤
      max_delay ∧
    |calculate_delay initial_delay max_delay backoff_factor jitter_factor
        attempt r -
      backoff_delay initial_delay max_delay backoff_factor attempt| ≤
      jitter_factor *
        backoff_delay initial_delay max_delay backoff_factor attempt ∧
    (List.range 6).map (fun i => backoff_delay 1 10 2 i) =
      [1, 2, 4, 8, 10, 10] := by
  have hd0 : 0 ≤ backoff_delay initial_delay max_delay backoff_factor
      attempt :=
    le_min (mul_nonneg h0 (pow_nonneg h1 _)) h2
  have hja : 0 ≤ backoff_delay initial_delay max_delay backoff_factor
      attempt * jitter_factor := mul_nonneg hd0 h3
  refine ⟨rfl, min_le_right _ _, ?_, ?_⟩
  · have key : calculate_delay initial_delay max_delay backoff_factor
        jitter_factor attempt r -
        backoff_delay initial_delay max_delay backoff_factor attempt =
        (backoff_delay initial_delay max_delay backoff_factor attempt *
          jitter_factor) * (2 * r - 1) := by
      unfold calculate_delay
      ring
    rw [key, abs_mul, abs_of_nonneg hja]
    have habs : |2 * r - 1| ≤ 1 := abs_le.mpr ⟨by linarith, by linarith⟩
    calc backoff_delay initial_delay max_delay backoff_factor attempt *
          jitter_factor * |2 * r - 1| ≤
        backoff_delay initial_delay max_delay backoff_factor attempt *
          jitter_factor * 1 := by
          exact mul_le_mul_of_nonneg_left habs hja
      _ = jitter_factor *
          backoff_delay initial_delay max_delay backoff_factor attempt := by
          ring
  · norm_num [List.range_succ, backoff_delay, min_def]

/-- Witness for C7 at `initial = 1, factor = 2, cap = 10,
jitter_factor = 1/4, r = 1/2, attempt = 6`: the capped delay stays ≤ 10
and the jittered delay stays within a quarter of it. -/
theorem retry_backoff_cap_witness :
    backoff_delay 1 10 2 6 ≤ 10 ∧
    |calculate_delay 1 10 2 (1/4) 6 (1/2) - backoff_delay 1 10 2 6| ≤
      (1/4) * backoff_delay 1 10 2 6 := by
  have h := retry_backoff_cap 1 10 2 (1/4) (1/2) 6
    (by norm_num) (by norm_num) (by norm_num) (by norm_num)
    (by norm_num) (by norm_num)
  exact ⟨h.2.1, h.2.2.1⟩

/-- Witness for C10: on the concrete two-strategy source the returned
list is sorted by score and its member `recA1` has a numeric score. -/
theorem search_results_ranked_witness :
    ((search_database envAB [] "pubmed" ["api", "browser"]).1).Pairwise
      (fun a b => getScoreKey b ≤ getScoreKey a) ∧
    hasNumericScore recA1 = true := by
  have h := search_results_ranked envAB [] "pubmed" ["api", "browser"]
  exact ⟨h.1, h.2 recA1 (by decide)⟩

end MedSearch
